import Mathlib

/-!
Verification development for the polysquare-setuptools-lint command
(`polysquare_setuptools_lint/__init__.py`).

The Python source is shallowly embedded below:

* string helpers mirror the exact Python `str` operations used by the code
  (`split`, `strip`, slicing, `startswith`);
* `_parse_suppressions`, `_suppressed`, `_Key.__lt__`, `_run_prospector_on`
  are translated definition by definition;
* the per-run dict accumulation (`keyed_messages.update(...)`) is modelled by
  `dictInsert` / `dictUpdate` / `mergeAll`, which implement Python `dict`
  assignment and `dict.update` over association lists;
* the dispatch of checks in `PolysquareLintCommand._map_over_linters` and the
  exit-code logic of `PolysquareLintCommand.run` are modelled as functions of
  an environment that records what every external tool would report.
-/

/-- Python `str.isspace` characters: the whitespace stripped by `str.strip()`. -/
def pyIsSpace (c : Char) : Bool :=
  c = ' ' || c = '\t' || c = '\n' || c = '\r' || c = '\x0b' || c = '\x0c'

/-- Python `s.strip()`: drop leading and trailing whitespace. -/
def pyStrip (s : String) : String :=
  String.mk (((s.data.dropWhile pyIsSpace).reverse.dropWhile pyIsSpace).reverse)

/-- Python `s.split(sep)` for a single-character separator, at the
character-list level.  `"".split(sep) == [""]`, and every occurrence of the
separator produces a new (possibly empty) segment. -/
def splitOnChar (c : Char) : List Char → List (List Char)
  | [] => [[]]
  | x :: xs =>
    let r := splitOnChar c xs
    if x = c then [] :: r
    else
      match r with
      | [] => [[x]]
      | y :: ys => (x :: y) :: ys

/-- Python `s.split(sep)` for a single-character separator, on strings. -/
def pySplit (c : Char) (s : String) : List String :=
  (splitOnChar c s.data).map String.mk

/-- Here `startsWithList s p` is Python `s.startswith(p)` on character lists. -/
def startsWithList : List Char → List Char → Bool
  | _, [] => true
  | [], _ :: _ => false
  | a :: as, b :: bs => a = b && startsWithList as bs

/-- Python `s[n:]`. -/
def pyDrop (s : String) (n : Nat) : String :=
  String.mk (s.data.drop n)

/-- Python `s[:-1]` (drop the final character; `""` stays `""`). -/
def pyDropLast (s : String) : String :=
  String.mk s.data.dropLast

/-- The function `_parse_suppressions` from the source:
`suppressions[len("suppress("):-1].split(",")` — the text between
`suppress(` and the final character, split on commas (no stripping). -/
def _parse_suppressions (suppressions : String) : List String :=
  pySplit ',' (pyDropLast (pyDrop suppressions "suppress(".length))

example : _parse_suppressions "suppress(a, b)" = ["a", " b"] := by decide

example : pyStrip "  # suppress(foo)\n" = "# suppress(foo)" := by decide

/-- The class `_Key`, the namedtuple `(file, line, code)` used to key messages.
Line numbers are Python ints, hence `Int`. -/
structure _Key where
  file : String
  line : Int
  code : String
deriving DecidableEq

/-- The class `prospector.message.Location`, restricted to the fields this program
reads (`path` and `line`). -/
structure Location where
  path : String
  line : Int
deriving DecidableEq

/-- The class `prospector.message.Message`, restricted to the fields this program
reads (`source`, `code`, `location`, and the text). -/
structure Message where
  source : String
  code : String
  location : Location
  text : String
deriving DecidableEq

/-- Strict lexicographic comparison of character lists: how Python compares
two strings with `<`. -/
def listLtb : List Char → List Char → Bool
  | [], [] => false
  | [], _ :: _ => true
  | _ :: _, [] => false
  | a :: as, b :: bs => decide (a < b) || (decide (a = b) && listLtb as bs)

/-- Python `s1 < s2` on strings: code-point lexicographic order. -/
def pyStrLt (s t : String) : Bool := listLtb s.data t.data

/-- The method `_Key.__lt__`: compare `file`, then `line`, then `code`. -/
def _Key.lt (a b : _Key) : Bool :=
  if a.file = b.file then
    if a.line = b.line then pyStrLt a.code b.code
    else decide (a.line < b.line)
  else pyStrLt a.file b.file

/-- Python list indexing `xs[i]`: non-negative indices from the front,
negative indices from the back, `none` = `IndexError`. -/
def pyIndex (xs : List String) (i : Int) : Option String :=
  if 0 ≤ i then xs.get? i.toNat
  else if 0 ≤ i + xs.length then xs.get? (i + xs.length).toNat
  else none

/-- The loop `while line > len(lines): line = line - 1` from `_suppressed`. -/
def clampLine (line : Int) (n : Nat) : Int :=
  if line > n then clampLine (line - 1) n else line
termination_by (line - n).toNat
decreasing_by simp_wf; omega

/-- The state `_suppressed` reads: the configured global suppress list and the
file-lines cache (`_file_lines` returns the empty sequence of lines for a
missing file, which the zero-length test then catches). -/
structure SuppressEnv where
  suppress_codes : List String
  fileLines : String → List String

/-- The method `PolysquareLintCommand._suppressed(filename, line, code)`.

`none` models an uncaught `IndexError` (only reachable for line numbers so
negative that `lines[line - 1]` is out of range even from the back).  Python
falls off the end of the function — returning `None` — when the inspected
line carries a `#` comment, or a candidate "line above", that is not a
`suppress(...)` directive; the only caller uses the result under `if not
...:`, where `None` and `False` coincide, so that fall-through is modelled
as `some false`. -/
def _suppressed (env : SuppressEnv) (filename : String) (line : Int)
    (code : String) : Option Bool :=
  if code ∈ env.suppress_codes then some true
  else
    let lines := env.fileLines filename
    if lines.length = 0 then some false
    else
      let line2 := clampLine line lines.length
      match pyIndex lines (line2 - 1) with
      | none => none
      | some relevant_line =>
        match (pySplit '#' relevant_line).get? 1 with
        | some seg =>
          let s := pyStrip seg
          if startsWithList s.data "suppress(".data then
            some (decide (code ∈ _parse_suppressions s))
          else some false
        | none =>
          match pyIndex lines (max 0 (line2 - 2)) with
          | none => none
          | some above_line =>
            let s := pyStrip (pyDrop (pyStrip above_line) 1)
            if startsWithList s.data "suppress(".data then
              some (decide (code ∈ _parse_suppressions s))
            else some false

/-- The trailing-comment lookup of `_suppressed`: split the line on `#`,
take the second segment, strip it, require the `suppress(...)` shape, and
test membership of `code`. -/
def trailingCheck (l : String) (code : String) : Bool :=
  match (pySplit '#' l).get? 1 with
  | some seg =>
    let s := pyStrip seg
    startsWithList s.data "suppress(".data && decide (code ∈ _parse_suppressions s)
  | none => false

/-- The "line above" lookup of `_suppressed`: strip the line, drop its
leading comment marker, strip again, require the `suppress(...)` shape, and
test membership of `code`. -/
def aboveCheck (a : String) (code : String) : Bool :=
  let s := pyStrip (pyDrop (pyStrip a) 1)
  startsWithList s.data "suppress(".data && decide (code ∈ _parse_suppressions s)

/-- Modelled from the spec: the claim's reading of the suppression
predicate — true iff the code is globally suppressed, OR a directive in the
flagged line's trailing comment contains it, OR a directive on the line
immediately above contains it (with no proviso about when each inline
lookup is consulted). -/
def suppressedSpec (env : SuppressEnv) (filename : String) (line : Int)
    (code : String) : Bool :=
  decide (code ∈ env.suppress_codes) ||
  (let lines := env.fileLines filename
   (match pyIndex lines (line - 1) with
    | some l => trailingCheck l code
    | none => false) ||
   (match pyIndex lines (max 0 (line - 2)) with
    | some a => aboveCheck a code
    | none => false))

/-- A mapping from `_Key` to findings, as returned by every check: the
association-list model of a Python `dict` (keys unique, insertion-ordered). -/
abbrev Mapping := List (_Key × Message)

/-- Python dict assignment `d[k] = v`: replace the value at an existing key
in place, or append a new entry at the end. -/
def dictInsert (d : Mapping) (k : _Key) (v : Message) : Mapping :=
  match d with
  | [] => [(k, v)]
  | p :: rest => if p.1 = k then (p.1, v) :: rest else p :: dictInsert rest k v

/-- Python `d.update(m)`: assign each entry of `m` into `d` in order. -/
def dictUpdate (d m : Mapping) : Mapping :=
  m.foldl (fun acc kv => dictInsert acc kv.1 kv.2) d

/-- The accumulation loop of `PolysquareLintCommand.run`:
`keyed_messages = dict()` followed by `keyed_messages.update(keyed_subset)`
for each yielded mapping, in dispatch order. -/
def mergeAll (subsets : List Mapping) : Mapping :=
  subsets.foldl dictUpdate []

/-- Python `d.get(k)` / `k in d`: the value stored at `k`, if any. -/
def dictLookup (d : Mapping) (k : _Key) : Option Message :=
  (d.find? (fun p => decide (p.1 = k))).map Prod.snd

/-- The keys of a mapping, in storage order. -/
def dictKeys (d : Mapping) : List _Key := d.map Prod.fst

/-- The Python-dict invariant: every key occurs at most once. -/
abbrev NodupKeys (d : Mapping) : Prop := (dictKeys d).Nodup

/-- The value at `k` of the *last* entry of `m` whose key is `k`. -/
def lookupLast (m : Mapping) (k : _Key) : Option Message :=
  match m with
  | [] => none
  | kv :: rest => (lookupLast rest k).or (if kv.1 = k then some kv.2 else none)

/-- The amended reading of the suppression predicate: globally suppressed,
or — after clamping the line into range of a non-empty file — the flagged
line contains a `#` and its trailing comment carries a directive containing
the code, or the flagged line contains no `#` and the line above (the line
itself at line 1) carries a directive containing the code. -/
def suppressedAmended (env : SuppressEnv) (filename : String) (line : Int)
    (code : String) : Bool :=
  decide (code ∈ env.suppress_codes) ||
  (let lines := env.fileLines filename
   if lines.length = 0 then false
   else
     let line2 := clampLine line lines.length
     match pyIndex lines (line2 - 1) with
     | none => false
     | some l =>
       if decide ('#' ∈ l.data) then trailingCheck l code
       else
         match pyIndex lines (max 0 (line2 - 2)) with
         | none => false
         | some a => aboveCheck a code)

/-- Outcome of `_run_prospector_on(filenames, tools, disabled_linters, ...)`:
the `assert len(tools) > 0` may fire; otherwise the disabled linters are
subtracted from the tool list and, if nothing is left, the empty mapping is
returned before prospector is ever configured or executed. -/
inductive ProspectorResult where
  | assertionError
  | earlyEmpty
  | executed (tools : List String)
deriving DecidableEq

/-- The function `_run_prospector_on`, reduced to its control flow: which tools (if any)
prospector is eventually invoked with.  Python computes
`list(set(tools) - set(disabled_linters))`, whose membership (and hence
emptiness) agrees with this filter; only the order/multiplicity of the
surviving tool names — which the claims never consult — is
underdetermined in Python. -/
def _run_prospector_on (tools disabled_linters : List String) :
    ProspectorResult :=
  if tools.length > 0 then
    let tools2 := tools.filter (fun t => decide (t ∉ disabled_linters))
    if tools2.length = 0 then .earlyEmpty else .executed tools2
  else .assertionError

/-- The sub-linter list built by `_run_prospector`: `pep257`, `pep8`,
`pyflakes`, plus `pylint` when `can_run_pylint()`, plus `frosted` for
non-test files when `can_run_frosted()`. -/
def linterToolNames (isTest canPylint canFrosted : Bool) : List String :=
  ["pep257", "pep8", "pyflakes"]
    ++ (if canPylint then ["pylint"] else [])
    ++ (if isTest then [] else if canFrosted then ["frosted"] else [])

/-- Observable side effects of the dispatch layer: a jobstamp cache lookup
for a logical check, or an execution of an underlying tool.  Jobstamps are
modelled on the fresh-cache path: every `_stamped_deps`/`jobstamp.run` call
performs its lookup and then (on the miss) runs the wrapped function. -/
inductive Event where
  | stampLookup (check : String)
  | toolRun (check : String)
deriving DecidableEq

/-- The check a dispatch event belongs to. -/
def Event.check : Event → String
  | .stampLookup c => c
  | .toolRun c => c

/-- Environment for a run: what every external tool would report on given
inputs, and the platform predicates consulted before dispatch. -/
structure LintEnv where
  flake8Out : String → Mapping
  prospectorOut : String → List String → Mapping
  dodgyOut : List String → Mapping
  pyromaOut : Mapping
  mdlOut : List String → Mapping
  styleOut : List String → Mapping
  spellOut : List String → Mapping
  isTest : String → Bool
  canPylint : Bool
  canFrosted : Bool

/-- Events of `_run_prospector(filename, ...)` for one file: the jobstamp
lookup wrapping `_run_prospector_on`, then one tool execution per surviving
sub-linter. -/
def _run_prospector_events (env : LintEnv) (disabled : List String)
    (f : String) : List Event :=
  Event.stampLookup "prospector" ::
    (match _run_prospector_on
        (linterToolNames (env.isTest f) env.canPylint env.canFrosted)
        disabled with
     | .executed ts => ts.map Event.toolRun
     | _ => [])

/-- The mapping produced by `_run_prospector(filename, ...)` for one file. -/
def _run_prospector_result (env : LintEnv) (disabled : List String)
    (f : String) : Mapping :=
  match _run_prospector_on
      (linterToolNames (env.isTest f) env.canPylint env.canFrosted)
      disabled with
  | .executed ts => env.prospectorOut f ts
  | _ => []

/-- Events of the `dodgy` check:
`_stamped_deps(stamp_directory, _run_prospector_on, non_test_files,
["dodgy"], disabled_linters, ...)` — always a jobstamp lookup, then the
`dodgy` execution unless the subtraction removed it. -/
def dodgyEvents (disabled : List String) : List Event :=
  Event.stampLookup "dodgy" ::
    (match _run_prospector_on ["dodgy"] disabled with
     | .executed ts => ts.map Event.toolRun
     | _ => [])

/-- The mapping produced by the `dodgy` check. -/
def dodgyResult (env : LintEnv) (disabled non_test_files : List String) :
    Mapping :=
  match _run_prospector_on ["dodgy"] disabled with
  | .executed _ => env.dodgyOut non_test_files
  | _ => []

/-- The names in the `dispatch` table of `_map_over_linters`, in order. -/
def dispatchNames : List String :=
  ["flake8", "pyroma", "mdl", "polysquare-generic-file-linter",
   "spellcheck-linter"]

/-- Events of one `dispatch` entry's action: `flake8` maps a stamped
per-file job over the Python files; `pyroma` is one stamped job; `mdl`,
the style linter and the spellcheck linter run unstamped at this layer. -/
def dispatchEvents (name : String) (py_files : List String) : List Event :=
  if name = "flake8" then
    py_files.flatMap (fun _ => [Event.stampLookup "flake8", Event.toolRun "flake8"])
  else if name = "pyroma" then [Event.stampLookup "pyroma", Event.toolRun "pyroma"]
  else if name = "mdl" then [Event.toolRun "mdl"]
  else if name = "polysquare-generic-file-linter" then
    [Event.toolRun "polysquare-generic-file-linter"]
  else [Event.toolRun "spellcheck-linter"]

/-- The mappings yielded by one `dispatch` entry's action. -/
def dispatchResult (env : LintEnv) (name : String)
    (py_files md_files : List String) : List Mapping :=
  if name = "flake8" then py_files.map env.flake8Out
  else if name = "pyroma" then [env.pyromaOut]
  else if name = "mdl" then [env.mdlOut md_files]
  else if name = "polysquare-generic-file-linter" then [env.styleOut py_files]
  else [env.spellOut md_files]

/-- The generator `PolysquareLintCommand._map_over_linters`: the prospector mappings (the
per-file prospector jobs, then the `dodgy` job on the non-test files) are
yielded first and unconditionally; afterwards each `dispatch` entry whose
name is not in `disable_linters` runs its action.  The result pairs each
yielded mapping with the name of the check that produced it, alongside the
event trace. -/
def _map_over_linters (env : LintEnv)
    (disabled py_files non_test_files md_files : List String) :
    List Event × List (String × Mapping) :=
  (py_files.flatMap (_run_prospector_events env disabled) ++ dodgyEvents disabled
     ++ (dispatchNames.filter (fun n => decide (n ∉ disabled))).flatMap
          (fun n => dispatchEvents n py_files),
   py_files.map (fun f => ("prospector", _run_prospector_result env disabled f))
     ++ [("dodgy", dodgyResult env disabled non_test_files)]
     ++ (dispatchNames.filter (fun n => decide (n ∉ disabled))).flatMap
          (fun n => (dispatchResult env n py_files md_files).map
            (fun m => (n, m))))

/-- The `use_multiprocessing` flag computed in `PolysquareLintCommand.run`:
`not os.getenv("DISABLE_MULTIPROCESSING", None)` (true when the variable is
unset or its value is falsy, i.e. empty) and `cpu_count() < len(files)` and
`cpu_count() > 2`. -/
def use_multiprocessing (disableEnvVar : Option String)
    (cpu_count nfiles : Nat) : Bool :=
  (match disableEnvVar with
   | none => true
   | some s => s.data.isEmpty)
    && decide (cpu_count < nfiles) && decide (cpu_count > 2)

/-- Modelled from the spec: the claim's reading of the parallelism switch —
parallel exactly when `DISABLE_MULTIPROCESSING` is unset and the number of
files exceeds the threshold (the CPU count, which is what the code compares
the file count against). -/
def useMultiprocessingSpec (disableEnvVar : Option String)
    (cpu_count nfiles : Nat) : Bool :=
  decide (disableEnvVar = none) && decide (cpu_count < nfiles)

/-- The survivors of suppression in `PolysquareLintCommand.run`: the merged
mapping's messages whose `(location.path, location.line, code)` the
suppression predicate rejects.  The suppression predicate is passed in
abstractly; `run` applies `_suppressed` through Python truthiness. -/
def runMessages (env : LintEnv) (disabled files md_files : List String)
    (supp : String → Int → String → Bool) : List Message :=
  if files.length = 0 then []
  else
    ((mergeAll (((_map_over_linters env disabled files
          (files.filter (fun f => ! env.isTest f)) md_files).2).map
            Prod.snd)).filter
      (fun kv => ! supp kv.2.location.path kv.2.location.line kv.2.code)).map
      Prod.snd

/-- Outcome of `PolysquareLintCommand.run`: the process exit status and
whether any dispatch happened. -/
structure RunOutcome where
  exitCode : Nat
  dispatched : Bool
deriving DecidableEq

/-- The command `PolysquareLintCommand.run`: exit 0 immediately (no dispatch) when no
files are found; otherwise dispatch, merge, suppress, render, and exit 1
iff any message survived (falling off the end of the command is exit 0). -/
def run (env : LintEnv) (disabled files md_files : List String)
    (supp : String → Int → String → Bool) : RunOutcome :=
  if files.length = 0 then ⟨0, false⟩
  else
    ⟨if (runMessages env disabled files md_files supp).length ≠ 0 then 1
      else 0,
     true⟩


/-! ### The `while line > len(lines)` loop computes `min(line, len(lines))` -/

theorem clampLine_gt : ∀ (k : Nat) (line : Int) (n : Nat),
    (line - n).toNat = k → (n : Int) < line → clampLine line n = n := by
  intro k
  induction k with
  | zero => intro line n hk h; omega
  | succ k ih =>
    intro line n hk h
    rw [clampLine.eq_def]
    simp only [gt_iff_lt, if_pos h]
    by_cases h2 : (n : Int) < line - 1
    · exact ih (line - 1) n (by omega) h2
    · have h3 : line - 1 = (n : Int) := by omega
      rw [h3, clampLine.eq_def]
      simp

theorem clampLine_eq (line : Int) (n : Nat) :
    clampLine line n = if (n : Int) < line then (n : Int) else line := by
  by_cases h : (n : Int) < line
  · rw [if_pos h]; exact clampLine_gt (line - n).toNat line n rfl h
  · rw [if_neg h, clampLine.eq_def]; simp [h]

/-! ### Association-list lemmas for the Python `dict` model -/

theorem dictLookup_cons (p : _Key × Message) (rest : Mapping) (x : _Key) :
    dictLookup (p :: rest) x = if p.1 = x then some p.2 else dictLookup rest x := by
  by_cases h : p.1 = x
  · simp [dictLookup, List.find?_cons_of_pos, h]
  · rw [if_neg h]
    unfold dictLookup
    rw [List.find?_cons_of_neg]
    simp [h]

theorem dictLookup_insert_self (d : Mapping) (k : _Key) (v : Message) :
    dictLookup (dictInsert d k v) k = some v := by
  induction d with
  | nil => simp [dictInsert, dictLookup, List.find?]
  | cons p rest ih =>
    by_cases h : p.1 = k
    · simp [dictInsert, h, dictLookup_cons]
    · simp only [dictInsert, if_neg h]
      rw [dictLookup_cons, if_neg h]
      exact ih

theorem dictLookup_insert_ne (d : Mapping) (k : _Key) (v : Message)
    (x : _Key) (h : x ≠ k) :
    dictLookup (dictInsert d k v) x = dictLookup d x := by
  induction d with
  | nil => simp [dictInsert, dictLookup, List.find?, Ne.symm h]
  | cons p rest ih =>
    by_cases hp : p.1 = k
    · have hx : p.1 ≠ x := by rw [hp]; exact Ne.symm h
      simp only [dictInsert, if_pos hp]
      rw [dictLookup_cons, dictLookup_cons, if_neg hx, if_neg hx]
    · simp only [dictInsert, if_neg hp]
      rw [dictLookup_cons, dictLookup_cons]
      by_cases hx : p.1 = x
      · simp [hx]
      · rw [if_neg hx, if_neg hx]
        exact ih

theorem dictKeys_insert (d : Mapping) (k : _Key) (v : Message) :
    dictKeys (dictInsert d k v) =
      if k ∈ dictKeys d then dictKeys d else dictKeys d ++ [k] := by
  induction d with
  | nil => simp [dictInsert, dictKeys]
  | cons p rest ih =>
    by_cases h : p.1 = k
    · simp [dictInsert, h, dictKeys]
    · simp only [dictInsert, if_neg h, dictKeys, List.map_cons]
      simp only [dictKeys] at ih
      rw [ih]
      by_cases hm : k ∈ rest.map Prod.fst
      · simp [hm, Ne.symm h]
      · simp [hm, Ne.symm h]

theorem nodupKeys_insert (d : Mapping) (k : _Key) (v : Message)
    (h : NodupKeys d) : NodupKeys (dictInsert d k v) := by
  unfold NodupKeys at h ⊢
  rw [dictKeys_insert]
  by_cases hm : k ∈ dictKeys d
  · simpa [hm]
  · simp only [hm, if_false]
    rw [List.nodup_append]
    refine ⟨h, List.nodup_singleton k, ?_⟩
    simp [List.disjoint_singleton, hm]

theorem lookupLast_of_not_mem (m : Mapping) (k : _Key) (h : k ∉ dictKeys m) :
    lookupLast m k = none := by
  induction m with
  | nil => rfl
  | cons p rest ih =>
    simp only [dictKeys, List.map_cons, List.mem_cons, not_or] at h
    rw [show lookupLast (p :: rest) k
        = (lookupLast rest k).or (if p.1 = k then some p.2 else none) from rfl]
    rw [ih (by simpa [dictKeys] using h.2), if_neg (fun hp => h.1 hp.symm)]
    rfl

theorem lookupLast_eq_dictLookup (m : Mapping) (k : _Key) (h : NodupKeys m) :
    lookupLast m k = dictLookup m k := by
  induction m with
  | nil => rfl
  | cons p rest ih =>
    simp only [NodupKeys, dictKeys, List.map_cons, List.nodup_cons] at h
    rw [show lookupLast (p :: rest) k
        = (lookupLast rest k).or (if p.1 = k then some p.2 else none) from rfl]
    rw [dictLookup_cons]
    by_cases hp : p.1 = k
    · rw [if_pos hp, if_pos hp, lookupLast_of_not_mem rest k (by rw [← hp]; simpa [dictKeys] using h.1)]
      rfl
    · rw [if_neg hp, if_neg hp, Option.or_none]
      exact ih h.2

theorem dictLookup_update (d m : Mapping) (k : _Key) :
    dictLookup (dictUpdate d m) k = (lookupLast m k).or (dictLookup d k) := by
  induction m generalizing d with
  | nil => simp [dictUpdate, lookupLast]
  | cons kv rest ih =>
    simp only [dictUpdate, List.foldl_cons]
    rw [show List.foldl (fun acc kv => dictInsert acc kv.1 kv.2)
          (dictInsert d kv.1 kv.2) rest
        = dictUpdate (dictInsert d kv.1 kv.2) rest from rfl]
    rw [ih]
    rw [show lookupLast (kv :: rest) k
        = (lookupLast rest k).or (if kv.1 = k then some kv.2 else none) from rfl]
    rw [Option.or_assoc]
    congr 1
    by_cases hk : kv.1 = k
    · rw [if_pos hk, ← hk, dictLookup_insert_self]
      rfl
    · rw [if_neg hk, dictLookup_insert_ne d kv.1 kv.2 k (Ne.symm hk)]
      rfl

theorem nodupKeys_update (m d : Mapping) (h : NodupKeys d) :
    NodupKeys (dictUpdate d m) := by
  induction m generalizing d with
  | nil => exact h
  | cons kv rest ih =>
    simp only [dictUpdate, List.foldl_cons]
    exact ih (dictInsert d kv.1 kv.2) (nodupKeys_insert d kv.1 kv.2 h)

theorem nodupKeys_mergeAll (subsets : List Mapping) :
    NodupKeys (mergeAll subsets) := by
  suffices H : ∀ (ss : List Mapping) (d : Mapping), NodupKeys d →
      NodupKeys (List.foldl dictUpdate d ss) by
    exact H subsets [] (by simp [NodupKeys, dictKeys])
  intro ss
  induction ss with
  | nil => exact fun d hd => hd
  | cons m rest ih =>
    intro d hd
    exact ih (dictUpdate d m) (nodupKeys_update m d hd)

theorem getLast?_cons_or (a : Message) (l : List Message) :
    (a :: l).getLast? = (l.getLast?).or (some a) := by
  cases l with
  | nil => rfl
  | cons b bs =>
    rw [List.getLast?_cons_cons]
    obtain ⟨v, hv⟩ := Option.isSome_iff_exists.mp
      (List.getLast?_isSome.mpr (List.cons_ne_nil b bs))
    rw [hv]
    rfl

theorem mergeAll_lookup (subsets : List Mapping)
    (h : ∀ m ∈ subsets, NodupKeys m) (k : _Key) :
    dictLookup (mergeAll subsets) k
      = (subsets.filterMap (fun m => dictLookup m k)).getLast? := by
  suffices H : ∀ (ss : List Mapping), (∀ m ∈ ss, NodupKeys m) → ∀ (d : Mapping),
      dictLookup (List.foldl dictUpdate d ss) k
        = ((ss.filterMap (fun m => dictLookup m k)).getLast?).or
            (dictLookup d k) by
    rw [mergeAll, H subsets h []]
    simp [dictLookup, List.find?]
  intro ss
  induction ss with
  | nil => intro _ d; simp
  | cons m rest ih =>
    intro hss d
    simp only [List.foldl_cons]
    rw [show List.foldl dictUpdate (dictUpdate d m) rest
        = List.foldl dictUpdate (dictUpdate d m) rest from rfl]
    rw [ih (fun x hx => hss x (List.mem_cons_of_mem _ hx)) (dictUpdate d m)]
    rw [dictLookup_update]
    rw [lookupLast_eq_dictLookup m k (hss m (List.mem_cons_self _ _))]
    simp only [List.filterMap_cons]
    cases hm : dictLookup m k with
    | none => simp
    | some v =>
      rw [getLast?_cons_or, Option.or_assoc]

/-! ### Lemmas about the string operations used by `_suppressed` -/

theorem splitOnChar_ne_nil (c : Char) (l : List Char) : splitOnChar c l ≠ [] := by
  cases l with
  | nil => simp [splitOnChar]
  | cons x xs =>
    unfold splitOnChar
    by_cases h : x = c
    · simp [h]
    · simp only [if_neg h]
      cases hr : splitOnChar c xs with
      | nil => simp
      | cons y ys => simp

theorem splitOnChar_get?_one_eq_none (c : Char) (l : List Char) :
    (splitOnChar c l).get? 1 = none ↔ c ∉ l := by
  induction l with
  | nil => simp [splitOnChar]
  | cons x xs ih =>
    unfold splitOnChar
    by_cases h : x = c
    · simp only [if_pos h]
      cases hr : splitOnChar c xs with
      | nil => exact absurd hr (splitOnChar_ne_nil c xs)
      | cons y ys =>
        simp [h]
    · simp only [if_neg h]
      cases hr : splitOnChar c xs with
      | nil => exact absurd hr (splitOnChar_ne_nil c xs)
      | cons y ys =>
        rw [hr] at ih
        simp only [List.get?_cons_succ, List.get?_cons_zero] at ih ⊢
        rw [List.mem_cons, not_or]
        constructor
        · intro hy; exact ⟨fun hx => h hx.symm, ih.mp hy⟩
        · intro hy; exact ih.mpr hy.2

theorem pySplit_get?_one_eq_none (c : Char) (s : String) :
    (pySplit c s).get? 1 = none ↔ c ∉ s.data := by
  rw [pySplit, List.get?_map]
  rw [← splitOnChar_get?_one_eq_none c s.data]
  cases splitOnChar c s.data |>.get? 1 <;> simp

theorem pyIndex_isSome (xs : List String) (i : Int) (h0 : 0 ≤ i)
    (h : i < (xs.length : Int)) : ∃ a, pyIndex xs i = some a := by
  unfold pyIndex
  rw [if_pos h0]
  have hlt : i.toNat < xs.length := by omega
  exact ⟨xs.get ⟨i.toNat, hlt⟩, List.get?_eq_get hlt⟩

theorem _suppressed_eq_amended (env : SuppressEnv) (f : String) (line : Int)
    (code : String) (hline : 1 ≤ line) :
    _suppressed env f line code = some (suppressedAmended env f line code) := by
  unfold _suppressed suppressedAmended
  by_cases hc : code ∈ env.suppress_codes
  · simp [hc]
  · have hdc : decide (code ∈ env.suppress_codes) = false := by simp [hc]
    rw [if_neg hc]
    simp only [hdc, Bool.false_or]
    by_cases hn : (env.fileLines f).length = 0
    · simp [hn]
    · simp only [if_neg hn]
      have hn' : 0 < (env.fileLines f).length := Nat.pos_of_ne_zero hn
      have h1 : 1 ≤ clampLine line (env.fileLines f).length := by
        rw [clampLine_eq]; split <;> omega
      have h2 : clampLine line (env.fileLines f).length
          ≤ ((env.fileLines f).length : Int) := by
        rw [clampLine_eq]; split <;> omega
      obtain ⟨rl, hrl⟩ := pyIndex_isSome (env.fileLines f)
        (clampLine line (env.fileLines f).length - 1) (by omega) (by omega)
      simp only [hrl]
      cases hseg : (pySplit '#' rl).get? 1 with
      | some seg =>
        have hcont : '#' ∈ rl.data := by
          by_contra hmem
          rw [(pySplit_get?_one_eq_none '#' rl).mpr hmem] at hseg
          cases hseg
        simp only [hseg, hcont, decide_True, if_true]
        unfold trailingCheck
        simp only [hseg]
        by_cases hsw : startsWithList (pyStrip seg).data "suppress(".data
        · simp [hsw]
        · simp [hsw]
      | none =>
        have hcont : '#' ∉ rl.data := (pySplit_get?_one_eq_none '#' rl).mp hseg
        simp only [hseg, hcont, decide_False, Bool.false_eq_true, if_false]
        obtain ⟨al, hal⟩ := pyIndex_isSome (env.fileLines f)
          (max 0 (clampLine line (env.fileLines f).length - 2))
          (le_max_left 0 _) (by omega)
        simp only [hal]
        unfold aboveCheck
        by_cases hsw : startsWithList
            (pyStrip (pyDrop (pyStrip al) 1)).data "suppress(".data
        · simp [hsw]
        · simp [hsw]

theorem _suppressed_clamps (env : SuppressEnv) (f : String) (m : Int)
    (code : String) (hn : 0 < (env.fileLines f).length)
    (hm : ((env.fileLines f).length : Int) < m) :
    clampLine m (env.fileLines f).length = ((env.fileLines f).length : Int) ∧
    _suppressed env f m code
      = _suppressed env f ((env.fileLines f).length : Int) code := by
  have e1 : clampLine m (env.fileLines f).length
      = ((env.fileLines f).length : Int) := by
    rw [clampLine_eq, if_pos hm]
  have e2 : clampLine ((env.fileLines f).length : Int)
      (env.fileLines f).length = ((env.fileLines f).length : Int) := by
    rw [clampLine_eq, if_neg (lt_irrefl _)]
  refine ⟨e1, ?_⟩
  unfold _suppressed
  simp only [e1, e2]

theorem _suppressed_line_one (env : SuppressEnv) (f : String) (code : String)
    (l : String) (rest : List String) (hf : env.fileLines f = l :: rest)
    (hc : code ∉ env.suppress_codes) (hcont : '#' ∉ l.data) :
    _suppressed env f 1 code = some (aboveCheck l code) := by
  unfold _suppressed
  rw [if_neg hc, hf]
  have hlen : (l :: rest).length ≠ 0 := by simp
  rw [if_neg hlen]
  have e : clampLine 1 (l :: rest).length = 1 := by
    rw [clampLine_eq]
    have h0 : 0 < (l :: rest).length := by simp
    rw [if_neg (by omega)]
  have hidx : pyIndex (l :: rest) 0 = some l := by simp [pyIndex]
  have hseg : (pySplit '#' l).get? 1 = none :=
    (pySplit_get?_one_eq_none '#' l).mpr hcont
  simp only [e, show (1 : Int) - 1 = 0 by norm_num,
    show max (0 : Int) (1 - 2) = 0 by norm_num, hidx, hseg]
  unfold aboveCheck
  by_cases hsw : startsWithList (pyStrip (pyDrop (pyStrip l) 1)).data
      "suppress(".data
  · simp [hsw]
  · simp [hsw]

/-! ### Dispatch-layer lemmas -/

theorem _run_prospector_on_executed (tools d ts : List String)
    (h : _run_prospector_on tools d = .executed ts) :
    ∀ t ∈ ts, t ∈ tools ∧ t ∉ d := by
  unfold _run_prospector_on at h
  by_cases h1 : tools.length > 0
  · rw [if_pos h1] at h
    by_cases h2 : (tools.filter (fun t => decide (t ∉ d))).length = 0
    · rw [if_pos h2] at h
      exact ProspectorResult.noConfusion h
    · simp only [if_neg h2, ProspectorResult.executed.injEq] at h
      intro t ht
      rw [← h] at ht
      have := List.mem_filter.mp ht
      exact ⟨this.1, by simpa using this.2⟩
  · rw [if_neg h1] at h
    cases h

theorem linterToolNames_subset (a b c : Bool) :
    ∀ t ∈ linterToolNames a b c,
      t ∈ ["pep257", "pep8", "pyflakes", "pylint", "frosted"] := by
  intro t ht
  unfold linterToolNames at ht
  cases a <;> cases b <;> cases c <;> simp at ht ⊢ <;> tauto

theorem _run_prospector_events_check (env : LintEnv) (disabled : List String)
    (f : String) (e : Event) (he : e ∈ _run_prospector_events env disabled f) :
    e.check ∈ ["prospector", "pep257", "pep8", "pyflakes", "pylint",
      "frosted"] := by
  unfold _run_prospector_events at he
  rcases List.mem_cons.mp he with h | h
  · simp [h, Event.check]
  · cases hr : _run_prospector_on
        (linterToolNames (env.isTest f) env.canPylint env.canFrosted)
        disabled with
    | executed ts =>
      rw [hr] at h
      obtain ⟨t, ht, rfl⟩ := List.mem_map.mp h
      have h1 := (_run_prospector_on_executed _ _ _ hr t ht).1
      have h2 := linterToolNames_subset _ _ _ t h1
      simpa [Event.check] using Or.inr (by simpa using h2)
    | assertionError => rw [hr] at h; cases h
    | earlyEmpty => rw [hr] at h; cases h

theorem dodgyEvents_check (disabled : List String) (e : Event)
    (he : e ∈ dodgyEvents disabled) : e.check = "dodgy" := by
  unfold dodgyEvents at he
  rcases List.mem_cons.mp he with h | h
  · simp [h, Event.check]
  · cases hr : _run_prospector_on ["dodgy"] disabled with
    | executed ts =>
      rw [hr] at h
      obtain ⟨t, ht, rfl⟩ := List.mem_map.mp h
      have h1 := (_run_prospector_on_executed _ _ _ hr t ht).1
      simp at h1
      simp [h1, Event.check]
    | assertionError => rw [hr] at h; cases h
    | earlyEmpty => rw [hr] at h; cases h

theorem dispatchEvents_check (n : String) (hn : n ∈ dispatchNames)
    (py : List String) (e : Event) (he : e ∈ dispatchEvents n py) :
    e.check = n := by
  unfold dispatchNames at hn
  simp only [List.mem_cons, List.not_mem_nil, or_false] at hn
  rcases hn with rfl | rfl | rfl | rfl | rfl
  · rw [show dispatchEvents "flake8" py
        = py.flatMap (fun _ =>
            [Event.stampLookup "flake8", Event.toolRun "flake8"]) from rfl] at he
    obtain ⟨f, _, hf⟩ := List.mem_flatMap.mp he
    rcases List.mem_cons.mp hf with rfl | hf
    · rfl
    · rcases List.mem_cons.mp hf with rfl | hf
      · rfl
      · cases hf
  · rw [show dispatchEvents "pyroma" py
        = [Event.stampLookup "pyroma", Event.toolRun "pyroma"] from rfl] at he
    rcases List.mem_cons.mp he with rfl | he
    · rfl
    · rcases List.mem_cons.mp he with rfl | he
      · rfl
      · cases he
  · rw [show dispatchEvents "mdl" py = [Event.toolRun "mdl"] from rfl] at he
    rcases List.mem_cons.mp he with rfl | he
    · rfl
    · cases he
  · rw [show dispatchEvents "polysquare-generic-file-linter" py
        = [Event.toolRun "polysquare-generic-file-linter"] from rfl] at he
    rcases List.mem_cons.mp he with rfl | he
    · rfl
    · cases he
  · rw [show dispatchEvents "spellcheck-linter" py
        = [Event.toolRun "spellcheck-linter"] from rfl] at he
    rcases List.mem_cons.mp he with rfl | he
    · rfl
    · cases he

theorem dispatchResult_pairs_name (env : LintEnv) (n : String)
    (py md : List String) (p : String × Mapping)
    (hp : p ∈ (dispatchResult env n py md).map (fun m => (n, m))) :
    p.1 = n := by
  obtain ⟨m, _, rfl⟩ := List.mem_map.mp hp
  rfl

theorem toolRun_disabled_not_mem (env : LintEnv)
    (disabled py nt md : List String) (t : String) (ht : t ∈ disabled) :
    Event.toolRun t ∉ (_map_over_linters env disabled py nt md).1 := by
  intro hmem
  unfold _map_over_linters at hmem
  rcases List.mem_append.mp hmem with hAB | h
  rcases List.mem_append.mp hAB with h | h
  · obtain ⟨f, _, hf⟩ := List.mem_flatMap.mp h
    unfold _run_prospector_events at hf
    rcases List.mem_cons.mp hf with heq | hf
    · exact Event.noConfusion heq
    · cases hr : _run_prospector_on
          (linterToolNames (env.isTest f) env.canPylint env.canFrosted)
          disabled with
      | executed ts =>
        rw [hr] at hf
        obtain ⟨t2, ht2, hteq⟩ := List.mem_map.mp hf
        have ht2' : t2 = t := by cases hteq; rfl
        exact (_run_prospector_on_executed _ _ _ hr t2 ht2).2 (ht2' ▸ ht)
      | assertionError => rw [hr] at hf; cases hf
      | earlyEmpty => rw [hr] at hf; cases hf
  · unfold dodgyEvents at h
    rcases List.mem_cons.mp h with heq | h
    · exact Event.noConfusion heq
    · cases hr : _run_prospector_on ["dodgy"] disabled with
      | executed ts =>
        rw [hr] at h
        obtain ⟨t2, ht2, hteq⟩ := List.mem_map.mp h
        have ht2' : t2 = t := by cases hteq; rfl
        exact (_run_prospector_on_executed _ _ _ hr t2 ht2).2 (ht2' ▸ ht)
      | assertionError => rw [hr] at h; cases h
      | earlyEmpty => rw [hr] at h; cases h
  · obtain ⟨n, hnf, he⟩ := List.mem_flatMap.mp h
    have hn2 := List.mem_filter.mp hnf
    have hcheck := dispatchEvents_check n hn2.1 py _ he
    have hn3 : n ∉ disabled := by simpa using hn2.2
    simp only [Event.check] at hcheck
    exact hn3 (hcheck ▸ ht)

theorem stampLookup_dodgy_mem (env : LintEnv)
    (disabled py nt md : List String) :
    Event.stampLookup "dodgy" ∈ (_map_over_linters env disabled py nt md).1 := by
  unfold _map_over_linters
  refine List.mem_append.mpr (Or.inl (List.mem_append.mpr (Or.inr ?_)))
  unfold dodgyEvents
  exact List.mem_cons_self _ _

theorem dispatch_disabled_no_events (env : LintEnv)
    (disabled py nt md : List String) (X : String)
    (hX : X ∈ dispatchNames) (hd : X ∈ disabled) :
    ∀ e ∈ (_map_over_linters env disabled py nt md).1, e.check ≠ X := by
  have hXn : X ∉ ["prospector", "pep257", "pep8", "pyflakes", "pylint",
      "frosted"] ∧ X ≠ "dodgy" := by
    unfold dispatchNames at hX
    simp only [List.mem_cons, List.not_mem_nil, or_false] at hX
    rcases hX with rfl | rfl | rfl | rfl | rfl <;> exact ⟨by decide, by decide⟩
  intro e he
  unfold _map_over_linters at he
  rcases List.mem_append.mp he with hAB | h
  rcases List.mem_append.mp hAB with h | h
  · obtain ⟨f, _, hf⟩ := List.mem_flatMap.mp h
    intro hEq
    exact hXn.1 (hEq ▸ _run_prospector_events_check env disabled f e hf)
  · intro hEq
    have := dodgyEvents_check disabled e h
    rw [hEq] at this
    exact hXn.2 this
  · obtain ⟨n, hnf, he2⟩ := List.mem_flatMap.mp h
    have hn2 := List.mem_filter.mp hnf
    have hn3 : n ∉ disabled := by simpa using hn2.2
    have hcheck := dispatchEvents_check n hn2.1 py _ he2
    intro hEq
    exact hn3 ((hcheck.symm.trans hEq) ▸ hd)

theorem dispatch_disabled_no_pairs (env : LintEnv)
    (disabled py nt md : List String) (X : String)
    (hX : X ∈ dispatchNames) (hd : X ∈ disabled) :
    ∀ p ∈ (_map_over_linters env disabled py nt md).2, p.1 ≠ X := by
  have hXn : X ≠ "prospector" ∧ X ≠ "dodgy" := by
    unfold dispatchNames at hX
    simp only [List.mem_cons, List.not_mem_nil, or_false] at hX
    rcases hX with rfl | rfl | rfl | rfl | rfl <;> exact ⟨by decide, by decide⟩
  intro p hp
  unfold _map_over_linters at hp
  rcases List.mem_append.mp hp with hAB | h
  rcases List.mem_append.mp hAB with h | h
  · obtain ⟨f, _, rfl⟩ := List.mem_map.mp h
    exact fun hEq => hXn.1 hEq.symm
  · rcases List.mem_cons.mp h with rfl | h
    · exact fun hEq => hXn.2 hEq.symm
    · cases h
  · obtain ⟨n, hnf, hp2⟩ := List.mem_flatMap.mp h
    have hn2 := List.mem_filter.mp hnf
    have hn3 : n ∉ disabled := by simpa using hn2.2
    rw [dispatchResult_pairs_name env n py md p hp2]
    exact fun hEq => hn3 (hEq ▸ hd)

/-! ### The list comparison agrees with the lexicographic string order -/

theorem listLtb_iff (as : List Char) : ∀ bs : List Char,
    listLtb as bs = true ↔ List.Lex (· < ·) as bs := by
  induction as with
  | nil =>
    intro bs
    cases bs with
    | nil => simp [listLtb]
    | cons b bs => simp [listLtb]; exact List.Lex.nil
  | cons a as ih =>
    intro bs
    cases bs with
    | nil => simp [listLtb]
    | cons b bs =>
      simp only [listLtb, Bool.or_eq_true, Bool.and_eq_true, decide_eq_true_eq]
      constructor
      · rintro (h | ⟨rfl, h⟩)
        · exact List.Lex.rel h
        · exact List.Lex.cons ((ih bs).mp h)
      · intro h
        cases h with
        | cons h => exact Or.inr ⟨rfl, (ih bs).mpr h⟩
        | rel h => exact Or.inl h

theorem pyStrLt_iff (s t : String) : pyStrLt s t = true ↔ s < t :=
  (listLtb_iff s.data t.data).trans
    (@String.lt_iff_toList_lt s t).symm

/-! ### Order lemmas for `_Key.__lt__` -/

theorem _Key_lt_iff (a b : _Key) :
    _Key.lt a b = true ↔
      (a.file < b.file ∨ (a.file = b.file ∧
        (a.line < b.line ∨ (a.line = b.line ∧ a.code < b.code)))) := by
  unfold _Key.lt
  by_cases h1 : a.file = b.file
  · by_cases h2 : a.line = b.line
    · simp [h1, h2, lt_irrefl, pyStrLt_iff]
    · simp [h1, h2, lt_irrefl]
  · simp [h1, pyStrLt_iff]

theorem _Key_eq_of_parts (a b : _Key) (h1 : a.file = b.file)
    (h2 : a.line = b.line) (h3 : a.code = b.code) : a = b := by
  cases a
  cases b
  simp only at h1 h2 h3
  simp [h1, h2, h3]

/-! ### Concrete inputs used by witnesses and counterexamples -/

/-- A run environment in which every external tool reports nothing. -/
def envTriv : LintEnv where
  flake8Out := fun _ => []
  prospectorOut := fun _ _ => []
  dodgyOut := fun _ => []
  pyromaOut := []
  mdlOut := fun _ => []
  styleOut := fun _ => []
  spellOut := fun _ => []
  isTest := fun _ => false
  canPylint := true
  canFrosted := true

/-- A suppression predicate that suppresses nothing. -/
def suppNone : String → Int → String → Bool := fun _ _ _ => false

/-- A file whose line 1 is a suppress comment and whose line 2 carries an
unrelated trailing comment. -/
def envC3 : SuppressEnv where
  suppress_codes := []
  fileLines := fun f =>
    if f = "f.py" then ["# suppress(foo)\n", "x = 1  # comment\n"] else []

/-- A one-line file whose single line starts with a non-`#` comment marker
followed directly by a suppress directive. -/
def envC8 : SuppressEnv where
  suppress_codes := []
  fileLines := fun f => if f = "doc.md" then [";suppress(foo)\n"] else []

/-- A one-line file with a two-code directive written with a space after
the comma. -/
def envC9 : SuppressEnv where
  suppress_codes := []
  fileLines := fun f =>
    if f = "h.py" then ["x = 1 # suppress(a, b)\n"] else []

/-- Two findings from different tools sharing one identity key. -/
def keyDemo : _Key := ⟨"f.py", 3, "E501"⟩

/-- First finding stored at `keyDemo`. -/
def msgDemo1 : Message := ⟨"pep8", "E501", ⟨"f.py", 3⟩, "line too long"⟩

/-- Second finding stored at `keyDemo`. -/
def msgDemo2 : Message := ⟨"flake8", "E501", ⟨"f.py", 3⟩, "line too long"⟩

/-! ### The claims -/

/-- Claim C1: merging the ordered sequence of per-check mappings by
repeatedly applying dict-update semantics yields a mapping with at most one
entry per identity key, and the entry stored at any key is exactly the one
contributed by the mapping that occurs last in dispatch order among those
containing the key (last-write-wins), for every sequence of mappings. -/
theorem claim_C1_merge_last_write_wins (subsets : List Mapping)
    (h : ∀ m ∈ subsets, NodupKeys m) :
    NodupKeys (mergeAll subsets) ∧
    ∀ k : _Key, dictLookup (mergeAll subsets) k
      = (subsets.filterMap (fun m => dictLookup m k)).getLast? :=
  ⟨nodupKeys_mergeAll subsets, mergeAll_lookup subsets h⟩

/-- Witness for C1: two checks report a finding under the same
`(file, line, code)` key; the merged result has unique keys and stores the
later check's entry. -/
theorem claim_C1_witness :
    NodupKeys (mergeAll [[(keyDemo, msgDemo1)], [(keyDemo, msgDemo2)]]) ∧
    dictLookup (mergeAll [[(keyDemo, msgDemo1)], [(keyDemo, msgDemo2)]])
      keyDemo = some msgDemo2 := by
  have h := claim_C1_merge_last_write_wins
    [[(keyDemo, msgDemo1)], [(keyDemo, msgDemo2)]] (by decide)
  exact ⟨h.1, (h.2 keyDemo).trans (by decide)⟩

/-- Claim C2: the run exits 0 when no findings survive suppression — in
particular an empty candidate file set exits 0 immediately with no
dispatch — and exits 1 exactly when at least one finding survives. -/
theorem claim_C2_exit_code_policy (env : LintEnv)
    (disabled files md_files : List String)
    (supp : String → Int → String → Bool) :
    (files.length = 0 →
      run env disabled files md_files supp = ⟨0, false⟩) ∧
    ((run env disabled files md_files supp).exitCode = 0 ↔
      runMessages env disabled files md_files supp = []) ∧
    ((run env disabled files md_files supp).exitCode = 1 ↔
      runMessages env disabled files md_files supp ≠ []) := by
  refine ⟨fun h => by unfold run; rw [if_pos h], ?_, ?_⟩
  · by_cases h : files.length = 0
    · unfold run runMessages
      rw [if_pos h, if_pos h]
      simp
    · unfold run
      rw [if_neg h]
      by_cases hL : runMessages env disabled files md_files supp = []
      · simp [hL]
      · have hlen : (runMessages env disabled files md_files supp).length ≠ 0 := by
          simpa [List.length_eq_zero] using hL
        simp [hlen, hL]
  · by_cases h : files.length = 0
    · unfold run runMessages
      rw [if_pos h, if_pos h]
      simp
    · unfold run
      rw [if_neg h]
      by_cases hL : runMessages env disabled files md_files supp = []
      · simp [hL]
      · have hlen : (runMessages env disabled files md_files supp).length ≠ 0 := by
          simpa [List.length_eq_zero] using hL
        simp [hlen, hL]

/-- Witness for C2: an empty file set exits 0 without dispatch, and a
one-file run with no tool output exits 0. -/
theorem claim_C2_witness :
    run envTriv [] [] [] suppNone = ⟨0, false⟩ ∧
    (run envTriv [] ["a.py"] [] suppNone).exitCode = 0 :=
  ⟨(claim_C2_exit_code_policy envTriv [] [] [] suppNone).1 rfl,
   ((claim_C2_exit_code_policy envTriv [] ["a.py"] [] suppNone).2.1).mpr
     (by decide)⟩

/-- Claim C3 counterexample: at line 2 of `envC3`'s file the flagged line
carries an unrelated trailing comment, so the code never consults the
`suppress(foo)` comment on the line immediately above and the finding is
not suppressed — while the claim's condition (directive on the line above
contains the code) holds. -/
theorem claim_C3_counterexample :
    suppressedSpec envC3 "f.py" 2 "foo" = true ∧
    _suppressed envC3 "f.py" 2 "foo" = some false := by
  refine ⟨by decide, ?_⟩
  simp only [_suppressed, clampLine_eq]
  decide

/-- Claim C3 (amended): for every line number ≥ 1, `_suppressed` returns a
boolean that is true iff the code is globally suppressed, or — after
clamping into a non-empty file — the flagged line contains a `#` and its
trailing comment carries a `suppress(...)` directive containing the code,
or the flagged line contains no `#` and the line above (the line itself at
line 1) carries such a directive; the line above is consulted only when
the flagged line has no `#`. -/
theorem claim_C3_amended_suppression (env : SuppressEnv) (f : String)
    (line : Int) (code : String) (h : 1 ≤ line) :
    _suppressed env f line code = some (suppressedAmended env f line code) :=
  _suppressed_eq_amended env f line code h

/-- Witness for C3 (amended), at the counterexample's input. -/
theorem claim_C3_witness :
    (1 : Int) ≤ 2 ∧
    _suppressed envC3 "f.py" 2 "foo"
      = some (suppressedAmended envC3 "f.py" 2 "foo") :=
  ⟨by decide, claim_C3_amended_suppression envC3 "f.py" 2 "foo" (by decide)⟩

/-- Claim C4: when a finding's reported line number exceeds the line count
of a non-empty file, the clamping loop stops at the line count and the
suppression lookup behaves exactly as for a finding reported on the file's
last real line. -/
theorem claim_C4_eof_clamping (env : SuppressEnv) (f : String) (m : Int)
    (code : String) (hn : 0 < (env.fileLines f).length)
    (hm : ((env.fileLines f).length : Int) < m) :
    clampLine m (env.fileLines f).length = ((env.fileLines f).length : Int) ∧
    _suppressed env f m code
      = _suppressed env f ((env.fileLines f).length : Int) code :=
  _suppressed_clamps env f m code hn hm

/-- Witness for C4: a finding reported at line 3 of the two-line file is
checked against line 2. -/
theorem claim_C4_witness :
    0 < (envC3.fileLines "f.py").length ∧
    ((envC3.fileLines "f.py").length : Int) < 3 ∧
    (clampLine 3 (envC3.fileLines "f.py").length
        = ((envC3.fileLines "f.py").length : Int) ∧
      _suppressed envC3 "f.py" 3 "foo"
        = _suppressed envC3 "f.py" ((envC3.fileLines "f.py").length : Int)
            "foo") :=
  ⟨by decide, by decide,
   claim_C4_eof_clamping envC3 "f.py" 3 "foo" (by decide) (by decide)⟩

/-- Claim C7: `_Key.__lt__` is the strict lexicographic order on
`(file, line, code)`, and it is irreflexive, transitive, and trichotomous
(with the three branches mutually exclusive). -/
theorem claim_C7_key_order :
    (∀ a b : _Key, _Key.lt a b = true ↔
      (a.file < b.file ∨ (a.file = b.file ∧
        (a.line < b.line ∨ (a.line = b.line ∧ a.code < b.code))))) ∧
    (∀ a : _Key, _Key.lt a a = false) ∧
    (∀ a b c : _Key, _Key.lt a b = true → _Key.lt b c = true →
      _Key.lt a c = true) ∧
    (∀ a b : _Key, _Key.lt a b = true ∨ a = b ∨ _Key.lt b a = true) ∧
    (∀ a b : _Key, _Key.lt a b = true → ¬(a = b ∨ _Key.lt b a = true)) := by
  refine ⟨_Key_lt_iff, ?_, ?_, ?_, ?_⟩
  · intro a
    unfold _Key.lt
    simp only [if_pos rfl]
    exact Bool.eq_false_iff.mpr fun h => lt_irrefl _ ((pyStrLt_iff _ _).mp h)
  · intro a b c hab hbc
    rw [_Key_lt_iff] at *
    rcases hab with h | ⟨he, h⟩ <;> rcases hbc with g | ⟨ge, g⟩
    · exact Or.inl (lt_trans h g)
    · exact Or.inl (ge ▸ h)
    · exact Or.inl (he ▸ g)
    · refine Or.inr ⟨he.trans ge, ?_⟩
      rcases h with h | ⟨he2, h⟩ <;> rcases g with g | ⟨ge2, g⟩
      · exact Or.inl (lt_trans h g)
      · exact Or.inl (ge2 ▸ h)
      · exact Or.inl (he2 ▸ g)
      · exact Or.inr ⟨he2.trans ge2, lt_trans h g⟩
  · intro a b
    rcases lt_trichotomy a.file b.file with h | h | h
    · exact Or.inl ((_Key_lt_iff a b).mpr (Or.inl h))
    · rcases lt_trichotomy a.line b.line with h2 | h2 | h2
      · exact Or.inl ((_Key_lt_iff a b).mpr (Or.inr ⟨h, Or.inl h2⟩))
      · rcases lt_trichotomy a.code b.code with h3 | h3 | h3
        · exact Or.inl ((_Key_lt_iff a b).mpr (Or.inr ⟨h, Or.inr ⟨h2, h3⟩⟩))
        · exact Or.inr (Or.inl (_Key_eq_of_parts a b h h2 h3))
        · exact Or.inr (Or.inr ((_Key_lt_iff b a).mpr
            (Or.inr ⟨h.symm, Or.inr ⟨h2.symm, h3⟩⟩)))
      · exact Or.inr (Or.inr ((_Key_lt_iff b a).mpr
          (Or.inr ⟨h.symm, Or.inl h2⟩)))
    · exact Or.inr (Or.inr ((_Key_lt_iff b a).mpr (Or.inl h)))
  · intro a b hab
    rw [_Key_lt_iff] at hab
    rintro (rfl | hba)
    · rcases hab with h | ⟨_, h | ⟨_, h⟩⟩ <;> exact lt_irrefl _ h
    · rw [_Key_lt_iff] at hba
      rcases hab with h | ⟨he, h⟩ <;> rcases hba with g | ⟨ge, g⟩
      · exact lt_asymm h g
      · exact absurd (ge ▸ h) (lt_irrefl _)
      · exact absurd (he ▸ g) (lt_irrefl _)
      · rcases h with h | ⟨he2, h⟩ <;> rcases g with g | ⟨ge2, g⟩
        · exact lt_asymm h g
        · exact absurd (ge2 ▸ h) (lt_irrefl _)
        · exact absurd (he2 ▸ g) (lt_irrefl _)
        · exact lt_asymm h g

/-- Witness for C7: transitivity applied at three concrete keys. -/
theorem claim_C7_witness :
    _Key.lt ⟨"a.py", 1, "A1"⟩ ⟨"b.py", 9, "Z9"⟩ = true :=
  claim_C7_key_order.2.2.1 ⟨"a.py", 1, "A1"⟩ ⟨"a.py", 2, "B2"⟩
    ⟨"b.py", 9, "Z9"⟩ (by decide) (by decide)

/-- Claim C5 counterexample: with `disable-linters = ["dodgy"]`, the run
still performs the jobstamp cache lookup for the dodgy check (the
`_stamped_deps(..., _run_prospector_on, non_test_files, ["dodgy"], ...)`
call is unconditional), contradicting "nor performs any cache/stamp lookup
for X". -/
theorem claim_C5_counterexample :
    "dodgy" ∈ ["dodgy"] ∧
    Event.stampLookup "dodgy"
      ∈ (_map_over_linters envTriv ["dodgy"] ["a.py"] ["a.py"] []).1 := by
  decide

/-- Claim C5 (amended): a disabled check named in the dispatch table
(`flake8`, `pyroma`, `mdl`, `polysquare-generic-file-linter`,
`spellcheck-linter`) is skipped before dispatch — no event of its check and
no result mapping attributed to it occurs; for every disabled name the
underlying tool is never executed; but the dodgy check's jobstamp lookup
happens unconditionally, even when `dodgy` is disabled. -/
theorem claim_C5_amended_disable (env : LintEnv)
    (disabled py_files non_test_files md_files : List String) :
    (∀ X, X ∈ dispatchNames → X ∈ disabled →
      (∀ e ∈ (_map_over_linters env disabled py_files non_test_files
          md_files).1, e.check ≠ X) ∧
      (∀ p ∈ (_map_over_linters env disabled py_files non_test_files
          md_files).2, p.1 ≠ X)) ∧
    (∀ t ∈ disabled, Event.toolRun t
      ∉ (_map_over_linters env disabled py_files non_test_files
          md_files).1) ∧
    Event.stampLookup "dodgy"
      ∈ (_map_over_linters env disabled py_files non_test_files md_files).1 :=
  ⟨fun X hX hd =>
    ⟨dispatch_disabled_no_events env disabled py_files non_test_files
        md_files X hX hd,
     dispatch_disabled_no_pairs env disabled py_files non_test_files
        md_files X hX hd⟩,
   fun t ht => toolRun_disabled_not_mem env disabled py_files non_test_files
     md_files t ht,
   stampLookup_dodgy_mem env disabled py_files non_test_files md_files⟩

/-- Witness for C5 (amended): disabling `flake8` means no flake8 tool run
is dispatched. -/
theorem claim_C5_witness :
    Event.toolRun "flake8"
      ∉ (_map_over_linters envTriv ["flake8"] ["a.py"] ["a.py"] []).1 :=
  (claim_C5_amended_disable envTriv ["flake8"] ["a.py"] ["a.py"] []).2.1
    "flake8" (by decide)

/-- Claim C6 counterexample: with 2 CPUs, 3 files and the variable unset,
the claim's condition (unset and file count above the threshold the code
compares against, the CPU count) holds, yet the code runs sequentially
because it additionally requires more than 2 CPUs. -/
theorem claim_C6_counterexample :
    useMultiprocessingSpec none 2 3 = true ∧
    use_multiprocessing none 2 3 = false := by
  decide

/-- Claim C6 (amended): the worker pool is used exactly when
`DISABLE_MULTIPROCESSING` is unset or set to the empty (falsy) string, the
number of files exceeds the CPU count, and the CPU count exceeds 2. -/
theorem claim_C6_amended_parallel (e : Option String) (c n : Nat) :
    use_multiprocessing e c n = true ↔
      ((e = none ∨ e = some "") ∧ c < n ∧ 2 < c) := by
  cases e with
  | none => simp [use_multiprocessing]
  | some s =>
    simp only [use_multiprocessing, Bool.and_eq_true, decide_eq_true_eq,
      List.isEmpty_iff]
    constructor
    · rintro ⟨⟨h1, h2⟩, h3⟩
      exact ⟨Or.inr (congrArg some (String.ext (by simpa using h1))), h2, h3⟩
    · rintro ⟨h1 | h1, h2, h3⟩
      · exact absurd h1 (by simp)
      · have hs : s = "" := by
          simpa using h1
        subst hs
        exact ⟨⟨rfl, h2⟩, h3⟩

/-- Witness for C6 (amended): unset variable, 4 files, 3 CPUs is parallel. -/
theorem claim_C6_witness :
    use_multiprocessing none 3 4 = true :=
  (claim_C6_amended_parallel none 3 4).mpr (by decide)

/-- Claim C8: for a finding on line 1 of a non-empty file whose first line
contains no `#`, the fallback consults index `max(0, 1 - 2) = 0`, i.e.
line 1 itself, so a directive placed behind a one-character comment leader
on the flagged line itself decides suppression. -/
theorem claim_C8_line_one_fallback (env : SuppressEnv) (f : String)
    (code : String) (l : String) (rest : List String)
    (hf : env.fileLines f = l :: rest) (hc : code ∉ env.suppress_codes)
    (hcont : '#' ∉ l.data) :
    max 0 ((1 : Int) - 2) = 0 ∧
    _suppressed env f 1 code = some (aboveCheck l code) :=
  ⟨by norm_num, _suppressed_line_one env f code l rest hf hc hcont⟩

/-- Witness for C8: the directive `;suppress(foo)` on line 1 suppresses a
line-1 `foo` finding even though no line exists above it. -/
theorem claim_C8_witness :
    _suppressed envC8 "doc.md" 1 "foo"
      = some (aboveCheck ";suppress(foo)\n" "foo") ∧
    aboveCheck ";suppress(foo)\n" "foo" = true ∧
    _suppressed envC8 "doc.md" 1 "foo" = some true := by
  have h := claim_C8_line_one_fallback envC8 "doc.md" "foo" ";suppress(foo)\n"
    [] (by decide) (by decide) (by decide)
  exact ⟨h.2, by decide, h.2.trans (by decide)⟩

/-- Claim C9: `_parse_suppressions` splits on commas without stripping, so
`suppress(a, b)` yields `["a", " b"]`, the membership test misses `"b"`,
and a `b` finding on the annotated line is not suppressed (while `a` is). -/
theorem claim_C9_no_whitespace_strip :
    _parse_suppressions "suppress(a, b)" = ["a", " b"] ∧
    "b" ∉ _parse_suppressions "suppress(a, b)" ∧
    " b" ∈ _parse_suppressions "suppress(a, b)" ∧
    _suppressed envC9 "h.py" 1 "b" = some false ∧
    _suppressed envC9 "h.py" 1 "a" = some true := by
  refine ⟨by decide, by decide, by decide, ?_, ?_⟩ <;>
    · simp only [_suppressed, clampLine_eq]
      decide

/-- Claim C10: `_run_prospector_on` with an empty tools list fails its
assertion; with a non-empty tools list whose members are all disabled it
returns the empty mapping without executing prospector. -/
theorem claim_C10_prospector_tools :
    (∀ disabled : List String,
      _run_prospector_on [] disabled = ProspectorResult.assertionError) ∧
    (∀ tools disabled : List String, tools ≠ [] →
      (∀ t ∈ tools, t ∈ disabled) →
      _run_prospector_on tools disabled = ProspectorResult.earlyEmpty) := by
  constructor
  · intro disabled
    rfl
  · intro tools disabled hne hall
    unfold _run_prospector_on
    rw [if_pos (List.length_pos.mpr hne)]
    have hf : tools.filter (fun t => decide (t ∉ disabled)) = [] := by
      rw [List.filter_eq_nil_iff]
      intro a ha
      simpa using hall a ha
    rw [if_pos (by rw [hf]; rfl)]

/-- Witness for C10: empty tools assert-fail; the all-disabled dodgy call
returns the empty mapping early. -/
theorem claim_C10_witness :
    _run_prospector_on [] ["pep8"] = ProspectorResult.assertionError ∧
    _run_prospector_on ["dodgy"] ["dodgy"] = ProspectorResult.earlyEmpty :=
  ⟨claim_C10_prospector_tools.1 ["pep8"],
   claim_C10_prospector_tools.2 ["dodgy"] ["dodgy"] (by decide)
     (by decide)⟩
